import Mathlib

/-!
Verification of the SIWE (Sign-In with Ethereum, EIP-4361) message model,
canonical serializer and verification pipeline, as implemented in
packages/siwe/lib/client.ts.

Strings of the implementation are embedded as lists of characters
(abbreviation Str), so every operation of the code becomes an executable,
structurally recursive Lean function.  External collaborators that are not
part of this repository (the ABNF message parser, the nonce generator, the
integer parser of the parser package, the ethers signature adapter, the
contract-wallet check, and the Date built-ins) are modelled from the
specification, as noted on each such definition.
-/

set_option maxHeartbeats 1000000

abbrev Str := List Char

/-- Strip a leading literal from a list: returns the remainder when the
second argument is an initial segment of the first, none otherwise. -/
def stripPre : Str → Str → Option Str
  | l, [] => some l
  | [], _ :: _ => none
  | c :: l, d :: p => if c = d then stripPre l p else none

theorem stripPre_append (p r : Str) : stripPre (p ++ r) p = some r := by
  induction p with
  | nil => simp [stripPre]
  | cons c p ih => simpa [stripPre] using ih

/-- Strip a trailing literal from a list, via reversal. -/
def stripSuf (l suf : Str) : Option Str :=
  (stripPre l.reverse suf.reverse).map List.reverse

theorem stripSuf_append (x suf : Str) : stripSuf (x ++ suf) suf = some x := by
  simp [stripSuf, List.reverse_append, stripPre_append]

/-- Split a character list at every newline, like String.prototype.split
on a single-character separator: always returns at least one segment. -/
def splitNl : Str → List Str
  | [] => [[]]
  | c :: rest =>
    if c = '\n' then [] :: splitNl rest
    else
      match splitNl rest with
      | [] => [[c]]
      | l :: ls => (c :: l) :: ls

/-- Join segments with single newlines, like Array.prototype.join. -/
def joinNl : List Str → Str
  | [] => []
  | [l] => l
  | l :: m :: ls => l ++ '\n' :: joinNl (m :: ls)

/-- A segment free of newline characters. -/
def noNl (s : Str) : Bool := s.all (fun c => c ≠ '\n')

theorem noNl_cons (c : Char) (l : Str) (h : noNl (c :: l) = true) :
    c ≠ '\n' ∧ noNl l = true := by
  simp only [noNl, List.all_cons, Bool.and_eq_true, decide_eq_true_eq] at h
  exact ⟨h.1, by simpa [noNl] using h.2⟩

theorem splitNl_no_nl (l : Str) (h : noNl l = true) : splitNl l = [l] := by
  induction l with
  | nil => rfl
  | cons c l ih =>
    obtain ⟨hc, hl⟩ := noNl_cons c l h
    simp [splitNl, hc, ih hl]

theorem splitNl_append_nl (l rest : Str) (h : noNl l = true) :
    splitNl (l ++ '\n' :: rest) = l :: splitNl rest := by
  induction l with
  | nil => simp [splitNl]
  | cons c l ih =>
    obtain ⟨hc, hl⟩ := noNl_cons c l h
    simp [splitNl, hc, ih hl]

theorem splitNl_joinNl :
    ∀ L : List Str, L ≠ [] → (∀ l ∈ L, noNl l = true) → splitNl (joinNl L) = L
  | [], h, _ => absurd rfl h
  | [l], _, h => by
    simpa [joinNl] using splitNl_no_nl l (h l (by simp))
  | l :: m :: ls, _, h => by
    have h1 : joinNl (l :: m :: ls) = l ++ '\n' :: joinNl (m :: ls) := rfl
    rw [h1, splitNl_append_nl l _ (h l (by simp)),
      splitNl_joinNl (m :: ls) (by simp) (fun x hx => h x (List.mem_cons_of_mem _ hx))]

theorem joinNl_append :
    ∀ (A B : List Str), A ≠ [] → B ≠ [] → joinNl (A ++ B) = joinNl A ++ '\n' :: joinNl B
  | [], _, hA, _ => absurd rfl hA
  | [a], B, _, hB => by
    obtain ⟨b, bs, rfl⟩ := List.exists_cons_of_ne_nil hB
    simp [joinNl]
  | a :: a2 :: A, B, _, hB => by
    have h1 : joinNl (a :: a2 :: A) = a ++ '\n' :: joinNl (a2 :: A) := rfl
    have h2 : (a :: a2 :: A) ++ B = a :: (a2 :: A) ++ B := rfl
    have h3 : joinNl (a :: ((a2 :: A) ++ B)) = a ++ '\n' :: joinNl ((a2 :: A) ++ B) := by
      cases A <;> cases B <;> rfl
    rw [h2, List.cons_append, h3, h1, joinNl_append (a2 :: A) B (by simp) hB]
    simp

theorem joinNl_single (x : Str) : joinNl [x] = x := rfl

theorem joinNl_append_join (X R : List Str) (hX : X ≠ []) (hR : R ≠ []) :
    joinNl (X ++ [joinNl R]) = joinNl (X ++ R) := by
  rw [joinNl_append X [joinNl R] hX (by simp), joinNl_append X R hX hR, joinNl_single]

/-- Find the first occurrence of the literal "://" in a list: returns the
part before it and the part after it, or none when it does not occur. -/
def splitSchAux : Str → Option (Str × Str)
  | [] => none
  | c :: rest =>
    if c = ':' ∧ rest.take 2 = ['/', '/'] then some ([], rest.drop 2)
    else (splitSchAux rest).map (fun p => (c :: p.1, p.2))

/-- The "://" literal used between scheme and domain in the header line. -/
def sepLit : Str := [':', '/', '/']

theorem splitSchAux_sep (s dom : Str) (h : s.all (fun c => c ≠ ':') = true) :
    splitSchAux (s ++ sepLit ++ dom) = some (s, dom) := by
  induction s with
  | nil => simp [splitSchAux, sepLit, List.take, List.drop]
  | cons c s ih =>
    simp only [List.all_cons, Bool.and_eq_true, decide_eq_true_eq] at h
    have h1 : ¬(c = ':' ∧ ((s ++ (sepLit ++ dom)).take 2 = ['/', '/'])) := by
      intro hc; exact h.1 hc.1
    show splitSchAux ((c :: s) ++ sepLit ++ dom) = some (c :: s, dom)
    rw [List.append_assoc, List.cons_append]
    simp only [splitSchAux, if_neg h1]
    rw [← List.append_assoc, ih h.2]
    rfl

/-- Decimal digit character for a value below ten. -/
def digitCh (d : Nat) : Char := Char.ofNat (48 + d)

theorem digitCh_ne_nl (d : Nat) (h : d < 10) : digitCh d ≠ '\n' := by
  interval_cases d <;> decide

/-- Decimal value of a digit character, none for a non-digit. -/
def charDigit (c : Char) : Option Nat :=
  if '0' ≤ c ∧ c ≤ '9' then some (c.toNat - 48) else none

theorem charDigit_digitCh (d : Nat) (h : d < 10) : charDigit (digitCh d) = some d := by
  interval_cases d <;> decide

/-- Fuel-driven digit accumulation, structurally recursive so that it
evaluates inside the kernel. -/
def natToStrAux : Nat → Nat → Str
  | 0, _ => []
  | fuel + 1, n => if n = 0 then [] else natToStrAux fuel (n / 10) ++ [digitCh (n % 10)]

/-- Decimal rendering of a natural number, most significant digit first,
matching JavaScript template-literal stringification of an integer. -/
def natToStr (n : Nat) : Str :=
  if n = 0 then ['0'] else natToStrAux n n

theorem natToStrAux_eq (fuel : Nat) : ∀ n ≤ fuel,
    natToStrAux fuel n = ((Nat.digits 10 n).map digitCh).reverse := by
  induction fuel with
  | zero =>
    intro n hn
    interval_cases n
    simp [natToStrAux]
  | succ fuel ih =>
    intro n hn
    by_cases h0 : n = 0
    · subst h0
      simp [natToStrAux]
    · have hdiv : n / 10 ≤ fuel := by
        have h1 : n / 10 < n := Nat.div_lt_self (Nat.pos_of_ne_zero h0) (by norm_num)
        omega
      rw [natToStrAux, if_neg h0, ih _ hdiv,
        Nat.digits_def' (by norm_num : (1:ℕ) < 10) (Nat.pos_of_ne_zero h0)]
      simp

theorem natToStr_eq_digits (n : Nat) (h : n ≠ 0) :
    natToStr n = (Nat.digits 10 n).reverse.map digitCh := by
  rw [natToStr, if_neg h, natToStrAux_eq n n (le_refl n), List.map_reverse]

/-- One step of decimal accumulation over an optional accumulator. -/
def pnStep (acc : Option Nat) (c : Char) : Option Nat :=
  match acc with
  | none => none
  | some a =>
    match charDigit c with
    | some d => some (10 * a + d)
    | none => none

/-- Parse a non-empty all-digit list as a decimal natural number. -/
def parseNatStr (s : Str) : Option Nat :=
  match s with
  | [] => none
  | _ :: _ => s.foldl pnStep (some 0)

theorem parseNat_fold (ds : List Nat) (a : Nat) (h : ∀ d ∈ ds, d < 10) :
    List.foldl pnStep (some a) (ds.map digitCh) =
    some (ds.foldl (fun x d => 10 * x + d) a) := by
  induction ds generalizing a with
  | nil => rfl
  | cons d ds ih =>
    simp only [List.map_cons, List.foldl_cons, pnStep, charDigit_digitCh d (h d (by simp))]
    exact ih _ (fun x hx => h x (by simp [hx]))

theorem foldl_reverse_ofDigits (l : List Nat) (a : Nat) :
    l.reverse.foldl (fun x d => 10 * x + d) a = a * 10 ^ l.length + Nat.ofDigits 10 l := by
  induction l generalizing a with
  | nil => simp
  | cons d t ih =>
    simp only [List.reverse_cons, List.foldl_append, List.foldl_cons, List.foldl_nil,
      ih, Nat.ofDigits_cons, List.length_cons]
    ring

theorem parseNat_natToStr (n : Nat) : parseNatStr (natToStr n) = some n := by
  by_cases h0 : n = 0
  · subst h0; decide
  · have hne : Nat.digits 10 n ≠ [] := Nat.digits_ne_nil_iff_ne_zero.mpr h0
    have hlt : ∀ d ∈ (Nat.digits 10 n).reverse, d < 10 := by
      intro d hd
      exact Nat.digits_lt_base (by norm_num) (List.mem_reverse.mp hd)
    have hshape : ∃ c cs, (Nat.digits 10 n).reverse.map digitCh = c :: cs := by
      rcases List.exists_cons_of_ne_nil (by simpa using hne : (Nat.digits 10 n).reverse ≠ [])
        with ⟨d, ds, hds⟩
      exact ⟨digitCh d, ds.map digitCh, by simp [hds]⟩
    obtain ⟨c, cs, hcs⟩ := hshape
    rw [natToStr_eq_digits n h0, hcs]
    show List.foldl pnStep (some 0) (c :: cs) = some n
    rw [← hcs, parseNat_fold _ 0 hlt, foldl_reverse_ofDigits, Nat.ofDigits_digits]
    simp

theorem noNl_natToStr (n : Nat) : noNl (natToStr n) = true := by
  by_cases h0 : n = 0
  · subst h0; decide
  · rw [natToStr_eq_digits n h0]
    simp only [noNl, List.all_eq_true, List.mem_map]
    rintro c ⟨d, hd, rfl⟩
    simpa using digitCh_ne_nl d (Nat.digits_lt_base (by norm_num)
      (List.mem_reverse.mp hd))

/-- Alphanumeric character test (ASCII letters and digits). -/
def alnum (c : Char) : Bool :=
  ('a' ≤ c && c ≤ 'z') || ('A' ≤ c && c ≤ 'Z') || ('0' ≤ c && c ≤ '9')

/-- The nonce well-formedness required by the EIP-4361 grammar: at least
eight characters, all alphanumeric. -/
def nonceOK (s : Str) : Bool := 8 ≤ s.length && s.all alnum

theorem digitCh_alnum (d : Nat) (h : d < 10) : alnum (digitCh d) = true := by
  interval_cases d <;> decide

/-- Modelled from the spec: the nonce generator of utils.ts is not part of
the sources; per the specification it returns at least eight alphanumeric
characters from an unpredictable source.  It is modelled as a function of
a seed producing eight decimal digit characters. -/
def generateNonce (seed : Nat) : Str :=
  (List.range 8).map (fun i => digitCh (seed / 10 ^ i % 10))

theorem generateNonce_ok (seed : Nat) : nonceOK (generateNonce seed) = true := by
  simp only [nonceOK, generateNonce, Bool.and_eq_true, List.all_eq_true]
  refine ⟨by simp, ?_⟩
  intro c hc
  simp only [List.mem_map, List.mem_range] at hc
  obtain ⟨i, _, rfl⟩ := hc
  exact digitCh_alnum _ (Nat.mod_lt _ (by norm_num))

theorem generateNonce_noNl (seed : Nat) : noNl (generateNonce seed) = true := by
  simp only [noNl, generateNonce, List.all_eq_true]
  intro c hc
  simp only [List.mem_map, List.mem_range] at hc
  obtain ⟨i, _, rfl⟩ := hc
  simpa using digitCh_ne_nl _ (Nat.mod_lt _ (by norm_num))

theorem generateNonce_ne_nil (seed : Nat) : generateNonce seed ≠ [] := by
  simp [generateNonce, List.range_succ]

/-- The SIWE message model of client.ts.  Optional fields are Option;
chainId is a sum because at runtime the field may hold a number or a
string before the constructor normalises it. -/
structure SiweMessage where
  scheme : Option Str
  domain : Str
  address : Str
  statement : Option Str
  uri : Str
  version : Str
  chainId : Nat ⊕ Str
  nonce : Str
  issuedAt : Option Str
  expirationTime : Option Str
  notBefore : Option Str
  requestId : Option Str
  resources : Option (List Str)
deriving DecidableEq

/-- JavaScript truthiness of an optional string: present and non-empty. -/
def truthyS (o : Option Str) : Bool :=
  match o with
  | none => false
  | some s => !s.isEmpty

/-- Template rendering of the chainId field: a number renders in decimal,
a string renders verbatim. -/
def renderChain : Nat ⊕ Str → Str
  | .inl n => natToStr n
  | .inr s => s

/-- The nonce actually serialized: the message nonce, or a generated one
when the field is falsy (toMessage lines 123-125). -/
def effNonce (m : SiweMessage) (seed : Nat) : Str :=
  if m.nonce.isEmpty then generateNonce seed else m.nonce

/-- The issuedAt actually serialized: the field, or the current instant
when the field is falsy (toMessage line 133). -/
def effIssued (m : SiweMessage) (now : Str) : Str :=
  match m.issuedAt with
  | some s => if s.isEmpty then now else s
  | none => now

def hdrSufLit : Str := (" wants you to sign in with your Ethereum account:").toList
def uriLit : Str := ("URI: ").toList
def verLit : Str := ("Version: ").toList
def chainLit : Str := ("Chain ID: ").toList
def nonceLit : Str := ("Nonce: ").toList
def issuedLit : Str := ("Issued At: ").toList
def expLit : Str := ("Expiration Time: ").toList
def nbLit : Str := ("Not Before: ").toList
def ridLit : Str := ("Request ID: ").toList
def resourcesLit : Str := ("Resources:").toList
def dashLit : Str := ("- ").toList

/-- The serializer, a faithful translation of SiweMessage.toMessage
(client.ts lines 112-163): the header prefix uses the scheme only when it
is truthy; the chain field carries the dead JavaScript fallback
(s || '1'); the prefix is built by joining [prefix, statement] on a double
newline (an absent statement joins as the empty string) and gains one more
newline exactly when the statement is not undefined. -/
def toMessage (m : SiweMessage) (seed : Nat) (now : Str) : Str :=
  let headerPre := if truthyS m.scheme then (m.scheme.getD []) ++ sepLit ++ m.domain else m.domain
  let header := headerPre ++ hdrSufLit
  let uriField := uriLit ++ m.uri
  let prefix1 := header ++ '\n' :: m.address
  let versionField := verLit ++ m.version
  let chainField := (fun s => if s.isEmpty then ['1'] else s) (chainLit ++ renderChain m.chainId)
  let nonceField := nonceLit ++ effNonce m seed
  let s1 := [uriField, versionField, chainField, nonceField, issuedLit ++ effIssued m now]
  let s2 := if truthyS m.expirationTime then s1 ++ [expLit ++ m.expirationTime.getD []] else s1
  let s3 := if truthyS m.notBefore then s2 ++ [nbLit ++ m.notBefore.getD []] else s2
  let s4 := if truthyS m.requestId then s3 ++ [ridLit ++ m.requestId.getD []] else s3
  let s5 :=
    match m.resources with
    | some rs => s4 ++ [joinNl (resourcesLit :: rs.map (fun x => dashLit ++ x))]
    | none => s4
  let suffix := joinNl s5
  let prefix2 := prefix1 ++ '\n' :: '\n' :: m.statement.getD []
  let prefix3 := if m.statement.isSome then prefix2 ++ ['\n'] else prefix2
  prefix3 ++ '\n' :: suffix

/-- The statement region of the line decomposition: a blank line, the
statement line when the statement is present (possibly empty), a blank
line. -/
def stmtLines : Option Str → List Str
  | none => [[], []]
  | some s => [[], s, []]

/-- The header line of the line decomposition. -/
def headerLineOf (m : SiweMessage) : Str :=
  (if truthyS m.scheme then (m.scheme.getD []) ++ sepLit ++ m.domain else m.domain) ++ hdrSufLit

/-- The field lines of the line decomposition, in serializer order. -/
def suffixLines (m : SiweMessage) (seed : Nat) (now : Str) : List Str :=
  (uriLit ++ m.uri) :: (verLit ++ m.version) :: (chainLit ++ renderChain m.chainId) ::
  (nonceLit ++ effNonce m seed) :: (issuedLit ++ effIssued m now) ::
  ((if truthyS m.expirationTime then [expLit ++ m.expirationTime.getD []] else []) ++
   (if truthyS m.notBefore then [nbLit ++ m.notBefore.getD []] else []) ++
   (if truthyS m.requestId then [ridLit ++ m.requestId.getD []] else []) ++
   (match m.resources with
    | some rs => resourcesLit :: rs.map (fun x => dashLit ++ x)
    | none => []))

/-- The full line decomposition of a serialized message. -/
def msgLines (m : SiweMessage) (seed : Nat) (now : Str) : List Str :=
  headerLineOf m :: m.address :: (stmtLines m.statement ++ suffixLines m seed now)

theorem if_push (c : Prop) [Decidable c] (A : List Str) (x : Str) :
    (if c then A ++ [x] else A) = A ++ (if c then [x] else []) := by
  split <;> simp

theorem joinNl_cons (a : Str) (l : List Str) (hl : l ≠ []) :
    joinNl (a :: l) = a ++ '\n' :: joinNl l := by
  obtain ⟨b, bs, rfl⟩ := List.exists_cons_of_ne_nil hl
  rfl

theorem isEmpty_chainLit_append (x : Str) : (chainLit ++ x).isEmpty = false := rfl

/-- The serializer emits exactly the newline-join of the line
decomposition. -/
theorem toMessage_lines (m : SiweMessage) (seed : Nat) (now : Str) :
    toMessage m seed now = joinNl (msgLines m seed now) := by
  simp only [toMessage, msgLines, suffixLines, stmtLines, headerLineOf,
    isEmpty_chainLit_append, Bool.false_eq_true, if_false]
  cases m.statement <;> cases m.resources <;>
    simp only [Option.isSome_none, Option.isSome_some, Bool.false_eq_true, if_false,
      if_true, Option.getD_none, Option.getD_some] <;>
    split_ifs <;> simp [joinNl, List.append_assoc]

/-- Parse the statement region after the address line: a mandatory blank
line, then either nothing (absent statement), a blank statement line
followed by its closing blank line, or a non-empty statement line followed
by its closing blank line; returns the statement and the remaining lines. -/
def parseStmt : List Str → Option (Option Str × List Str)
  | b :: l :: rest =>
    if b.isEmpty then
      if l.isEmpty then
        match rest with
        | [] => none
        | r :: rest2 => if r.isEmpty then some (some [], rest2) else some (none, rest)
      else
        match rest with
        | [] => none
        | r :: rest2 => if r.isEmpty then some (some l, rest2) else none
    else none
  | _ => none

/-- Consume one optional field line with the given literal: returns the
value and the remaining lines, or leaves the lines untouched. -/
def tryOpt (ls : List Str) (lit : Str) : Option Str × List Str :=
  match ls with
  | [] => (none, [])
  | l :: rest =>
    match stripPre l lit with
    | some v => (some v, rest)
    | none => (none, ls)

/-- Parse the resource entry lines, each of the form "- <uri>". -/
def parseResLines : List Str → Option (List Str)
  | [] => some []
  | l :: rest =>
    match stripPre l dashLit with
    | some v => (parseResLines rest).map (fun xs => v :: xs)
    | none => none

/-- Parse the lines after "Issued At:": the optional "Expiration Time:",
"Not Before:" and "Request ID:" lines in order, then an optional
"Resources:" block covering everything that remains. -/
def parseTail (ls : List Str) :
    Option (Option Str × Option Str × Option Str × Option (List Str)) :=
  let p1 := tryOpt ls expLit
  let p2 := tryOpt p1.2 nbLit
  let p3 := tryOpt p2.2 ridLit
  match p3.2 with
  | [] => some (p1.1, p2.1, p3.1, none)
  | r :: rest =>
    if r = resourcesLit then
      (parseResLines rest).map (fun xs => (p1.1, p2.1, p3.1, some xs))
    else none

/-- Parse the mandatory field lines "URI:", "Version:", "Chain ID:",
"Nonce:" and "Issued At:", enforcing the grammar's nonce shape, then the
optional tail. -/
def parseFields (sch : Option Str) (dom addr : Str) (stmt : Option Str) :
    List Str → Option SiweMessage
  | u :: v :: c :: n :: i :: rest =>
    match stripPre u uriLit with
    | none => none
    | some uri =>
      match stripPre v verLit with
      | none => none
      | some ver =>
        match stripPre c chainLit with
        | none => none
        | some cs =>
          match parseNatStr cs with
          | none => none
          | some chain =>
            match stripPre n nonceLit with
            | none => none
            | some non =>
              if nonceOK non then
                match stripPre i issuedLit with
                | none => none
                | some iss =>
                  match parseTail rest with
                  | none => none
                  | some (eo, nbo, rido, rso) =>
                    some ⟨sch, dom, addr, stmt, uri, ver, .inl chain, non, some iss,
                      eo, nbo, rido, rso⟩
              else none
  | _ => none

/-- Parse the line list of a message: the header line carrying the fixed
suffix and an optional "scheme://" part, the address line, the statement
region, then the field lines. -/
def parseLines : List Str → Option SiweMessage
  | hdr :: addr :: rest =>
    (match stripSuf hdr hdrSufLit with
     | none => none
     | some pre =>
       match
         (match splitSchAux pre with
          | some (s, d) => if s.isEmpty then none else some (some s, d)
          | none => some ((none : Option Str), pre)) with
       | none => none
       | some (sch, dom) =>
         match parseStmt rest with
         | none => none
         | some (stmt, rest2) => parseFields sch dom addr stmt rest2)
  | _ => none

/-- Modelled from the spec: the ABNF message parser (the external
siwe-parser package, out of the sources) accepts exactly the serializer's
output format (spec section 6, "must exactly match the serializer's output
format to parse successfully"; section 4.2 gives the exact line order) and
enforces the grammar's field shapes, in particular a nonce of at least
eight alphanumeric characters. -/
def parseMsg (s : Str) : Option SiweMessage :=
  parseLines (splitNl s)

theorem isEmpty_eq_false (s : Str) (h : s ≠ []) : s.isEmpty = false := by
  cases s with
  | nil => exact absurd rfl h
  | cons a l => rfl

theorem eq_nil_of_isEmpty (s : Str) (h : s.isEmpty = true) : s = [] := by
  cases s with
  | nil => rfl
  | cons a l => simp [List.isEmpty] at h

theorem noNl_append (a b : Str) : noNl (a ++ b) = (noNl a && noNl b) := by
  simp [noNl, List.all_append]

theorem stripPre_nb_exp (v : Str) : stripPre (nbLit ++ v) expLit = none := rfl

theorem stripPre_rid_exp (v : Str) : stripPre (ridLit ++ v) expLit = none := rfl

theorem stripPre_res_exp : stripPre resourcesLit expLit = none := rfl

theorem stripPre_rid_nb (v : Str) : stripPre (ridLit ++ v) nbLit = none := rfl

theorem stripPre_res_nb : stripPre resourcesLit nbLit = none := rfl

theorem stripPre_res_rid : stripPre resourcesLit ridLit = none := rfl

/-- The line emitted for a present optional field, nothing otherwise. -/
def optPart (lit : Str) : Option Str → List Str
  | some v => [lit ++ v]
  | none => []

/-- The lines emitted for the resources field: header line plus one dashed
line per entry when the array is present (even empty), nothing otherwise. -/
def resPart : Option (List Str) → List Str
  | some rs => resourcesLit :: rs.map (fun x => dashLit ++ x)
  | none => []

theorem parseResLines_map (rs : List Str) :
    parseResLines (rs.map (fun x => dashLit ++ x)) = some rs := by
  induction rs with
  | nil => rfl
  | cons r rs ih => simp [parseResLines, stripPre_append, ih]

theorem parseTail_ok (eo nbo rido : Option Str) (rso : Option (List Str)) :
    parseTail (optPart expLit eo ++ (optPart nbLit nbo ++ (optPart ridLit rido ++ resPart rso))) =
    some (eo, nbo, rido, rso) := by
  cases eo <;> cases nbo <;> cases rido <;> cases rso <;>
    simp [parseTail, tryOpt, optPart, resPart, stripPre_append, stripPre_nb_exp,
      stripPre_rid_exp, stripPre_res_exp, stripPre_rid_nb, stripPre_res_nb,
      stripPre_res_rid, parseResLines_map, parseResLines]

theorem parseStmt_ok (stmt : Option Str) (l0 : Str) (rest : List Str)
    (h : l0.isEmpty = false) :
    parseStmt (stmtLines stmt ++ l0 :: rest) = some (stmt, l0 :: rest) := by
  cases stmt with
  | none => simp [parseStmt, stmtLines, h]
  | some s =>
    by_cases hs : s.isEmpty
    · rw [eq_nil_of_isEmpty s hs]
      simp [parseStmt, stmtLines]
    · simp [parseStmt, stmtLines, h, hs]

theorem parseFields_ok (sch : Option Str) (dom addr : Str) (stmt : Option Str)
    (uri ver : Str) (chain : Nat) (non iss : Str)
    (eo nbo rido : Option Str) (rso : Option (List Str)) :
    parseFields sch dom addr stmt
      ((uriLit ++ uri) :: (verLit ++ ver) :: (chainLit ++ natToStr chain) ::
       (nonceLit ++ non) :: (issuedLit ++ iss) ::
       (optPart expLit eo ++ (optPart nbLit nbo ++ (optPart ridLit rido ++ resPart rso)))) =
    (if nonceOK non then
      some ⟨sch, dom, addr, stmt, uri, ver, .inl chain, non, some iss, eo, nbo, rido, rso⟩
    else none) := by
  simp [parseFields, stripPre_append, parseNat_natToStr, parseTail_ok]

/-- Structural validity of a message for the round-trip: no field contains
a newline; a present scheme is non-empty and colon-free; with no scheme
the domain contains no "://"; the chainId is numeric; the nonce is
non-empty; issuedAt is present and non-empty (the constructor always
leaves it so); present optional fields are non-empty. -/
def msgOK (m : SiweMessage) : Bool :=
  (match m.scheme with
   | none => (splitSchAux m.domain).isNone
   | some s => !s.isEmpty && s.all (fun c => c ≠ ':') && noNl s) &&
  noNl m.domain &&
  noNl m.address &&
  (match m.statement with | none => true | some s => noNl s) &&
  noNl m.uri && noNl m.version &&
  (match m.chainId with | .inl _ => true | .inr _ => false) &&
  !m.nonce.isEmpty && noNl m.nonce &&
  (match m.issuedAt with | some s => !s.isEmpty && noNl s | none => false) &&
  (match m.expirationTime with | none => true | some s => !s.isEmpty && noNl s) &&
  (match m.notBefore with | none => true | some s => !s.isEmpty && noNl s) &&
  (match m.requestId with | none => true | some s => !s.isEmpty && noNl s) &&
  (match m.resources with | none => true | some rs => rs.all noNl)

theorem truthy_part (lit : Str) (o : Option Str) (h : o ≠ some []) :
    (if truthyS o then [lit ++ o.getD []] else []) = optPart lit o := by
  cases o with
  | none => rfl
  | some v =>
    cases v with
    | nil => exact absurd rfl h
    | cons a l => simp [truthyS, optPart]

theorem effNonce_of_ne (m : SiweMessage) (seed : Nat) (h : m.nonce.isEmpty = false) :
    effNonce m seed = m.nonce := by
  simp [effNonce, h]

theorem noNl_uriLit : noNl uriLit = true := by decide
theorem noNl_verLit : noNl verLit = true := by decide
theorem noNl_chainLit : noNl chainLit = true := by decide
theorem noNl_nonceLit : noNl nonceLit = true := by decide
theorem noNl_issuedLit : noNl issuedLit = true := by decide
theorem noNl_expLit : noNl expLit = true := by decide
theorem noNl_nbLit : noNl nbLit = true := by decide
theorem noNl_ridLit : noNl ridLit = true := by decide
theorem noNl_resourcesLit : noNl resourcesLit = true := by decide
theorem noNl_dashLit : noNl dashLit = true := by decide
theorem noNl_sepLit : noNl sepLit = true := by decide
theorem noNl_hdrSufLit : noNl hdrSufLit = true := by decide

theorem noNl_tail_mem (o : Option Str) (lit : Str)
    (ho : (match o with | none => true | some s => !s.isEmpty && noNl s) = true)
    (hlit : noNl lit = true) :
    ∀ l ∈ (if truthyS o then [lit ++ o.getD []] else []), noNl l = true := by
  cases o with
  | none => simp [truthyS]
  | some v =>
    simp only [Bool.and_eq_true] at ho
    have hv : v.isEmpty = false := by simpa using ho.1
    intro l hl
    simp only [truthyS, hv, Bool.not_false, if_true, List.mem_singleton,
      Option.getD_some] at hl
    subst hl
    rw [noNl_append, hlit, ho.2]
    rfl

theorem noNl_res_mem (ro : Option (List Str))
    (hro : (match ro with | none => true | some rs => rs.all noNl) = true) :
    ∀ l ∈ (match ro with
           | some rs => resourcesLit :: rs.map (fun x => dashLit ++ x)
           | none => ([] : List Str)), noNl l = true := by
  cases ro with
  | none => simp
  | some rs =>
    intro l hl
    simp only [List.mem_cons, List.mem_map] at hl
    rcases hl with rfl | ⟨x, hx, rfl⟩
    · exact noNl_resourcesLit
    · rw [noNl_append, noNl_dashLit, List.all_eq_true.mp hro x hx]
      rfl

theorem msgLines_noNl (m : SiweMessage) (seed : Nat) (now : Str) (h : msgOK m = true) :
    ∀ l ∈ msgLines m seed now, noNl l = true := by
  obtain ⟨sch, dom, addr, stmt, uri, ver, cid, non, iss, exp, nb, rid, res⟩ := m
  simp only [msgOK, Bool.and_eq_true] at h
  obtain ⟨⟨⟨⟨⟨⟨⟨⟨⟨⟨⟨⟨⟨hsch, hdom⟩, haddr⟩, hstmt⟩, huri⟩, hver⟩, hcid⟩, hnonE⟩,
    hnon⟩, hiss⟩, hexp⟩, hnb⟩, hrid⟩, hres⟩ := h
  have hEff : noNl (effNonce ⟨sch, dom, addr, stmt, uri, ver, cid, non, iss, exp, nb, rid, res⟩ seed) = true := by
    rw [effNonce_of_ne _ _ (by simpa using hnonE)]
    exact hnon
  have hIss : noNl (effIssued ⟨sch, dom, addr, stmt, uri, ver, cid, non, iss, exp, nb, rid, res⟩ now) = true := by
    cases iss with
    | none => simp at hiss
    | some s =>
      simp only [Bool.and_eq_true] at hiss
      have hs : s.isEmpty = false := by simpa using hiss.1
      simpa [effIssued, hs] using hiss.2
  intro l hl
  simp only [msgLines, List.mem_cons] at hl
  rcases hl with rfl | rfl | hl
  · cases sch with
    | none => simpa [headerLineOf, truthyS, noNl_append, noNl_hdrSufLit] using hdom
    | some s =>
      simp only [Bool.and_eq_true] at hsch
      obtain ⟨⟨hs1, hs2⟩, hs3⟩ := hsch
      have ht : truthyS (some s) = true := by simpa [truthyS] using hs1
      simp [headerLineOf, ht, noNl_append, noNl_hdrSufLit, noNl_sepLit, hdom, hs3]
  · exact haddr
  · rw [List.mem_append] at hl
    rcases hl with hl | hl
    · cases stmt with
      | none =>
        simp only [stmtLines, List.mem_cons, List.not_mem_nil, or_false] at hl
        rcases hl with rfl | rfl <;> rfl
      | some s =>
        simp only [stmtLines, List.mem_cons, List.not_mem_nil, or_false] at hl
        rcases hl with rfl | rfl | rfl
        · rfl
        · exact hstmt
        · rfl
    · simp only [suffixLines, List.mem_cons] at hl
      rcases hl with rfl | rfl | rfl | rfl | rfl | hl
      · rw [noNl_append, noNl_uriLit, huri]; rfl
      · rw [noNl_append, noNl_verLit, hver]; rfl
      · rw [noNl_append, noNl_chainLit]
        cases cid with
        | inl n => simp [renderChain, noNl_natToStr n]
        | inr s => simp at hcid
      · rw [noNl_append, noNl_nonceLit, hEff]; rfl
      · rw [noNl_append, noNl_issuedLit, hIss]; rfl
      · rw [List.mem_append] at hl
        rcases hl with hl | hl
        · rw [List.mem_append] at hl
          rcases hl with hl | hl
          · rw [List.mem_append] at hl
            rcases hl with hl | hl
            · exact noNl_tail_mem exp expLit hexp noNl_expLit l hl
            · exact noNl_tail_mem nb nbLit hnb noNl_nbLit l hl
          · exact noNl_tail_mem rid ridLit hrid noNl_ridLit l hl
        · exact noNl_res_mem res hres l hl

theorem resPart_eq (o : Option (List Str)) :
    (match o with
     | some rs => resourcesLit :: rs.map (fun x => dashLit ++ x)
     | none => ([] : List Str)) = resPart o := by
  cases o <;> rfl

theorem ne_some_nil (o : Option Str)
    (ho : (match o with | none => true | some s => !s.isEmpty && noNl s) = true) :
    o ≠ some [] := by
  cases o with
  | none => simp
  | some v =>
    intro hv
    rw [Option.some_inj] at hv
    subst hv
    simp at ho

theorem suffixLines_eq (m : SiweMessage) (seed : Nat) (now : Str)
    (he : m.expirationTime ≠ some []) (hnb : m.notBefore ≠ some [])
    (hr : m.requestId ≠ some []) :
    suffixLines m seed now =
      (uriLit ++ m.uri) :: (verLit ++ m.version) :: (chainLit ++ renderChain m.chainId) ::
      (nonceLit ++ effNonce m seed) :: (issuedLit ++ effIssued m now) ::
      (optPart expLit m.expirationTime ++ (optPart nbLit m.notBefore ++
       (optPart ridLit m.requestId ++ resPart m.resources))) := by
  simp only [suffixLines, truthy_part _ _ he, truthy_part _ _ hnb, truthy_part _ _ hr,
    resPart_eq, List.append_assoc]

/-- Parsing the serializer's output recovers the message exactly, for any
structurally valid message, precisely when its nonce satisfies the
grammar's shape. -/
theorem parse_toMessage (m : SiweMessage) (seed : Nat) (now : Str) (h : msgOK m = true) :
    parseMsg (toMessage m seed now) = (if nonceOK m.nonce then some m else none) := by
  have hlines := msgLines_noNl m seed now h
  show parseLines (splitNl (toMessage m seed now)) = _
  rw [toMessage_lines, splitNl_joinNl _ (by simp [msgLines]) hlines]
  obtain ⟨sch, dom, addr, stmt, uri, ver, cid, non, iss, exp, nb, rid, res⟩ := m
  simp only [msgOK, Bool.and_eq_true] at h
  obtain ⟨⟨⟨⟨⟨⟨⟨⟨⟨⟨⟨⟨⟨hsch, hdom⟩, haddr⟩, hstmt⟩, huri⟩, hver⟩, hcid⟩, hnonE⟩,
    hnon⟩, hiss⟩, hexp⟩, hnb⟩, hrid⟩, hres⟩ := h
  obtain ⟨chain, rfl⟩ : ∃ n, cid = Sum.inl n := by
    cases cid with
    | inl n => exact ⟨n, rfl⟩
    | inr s => simp at hcid
  obtain ⟨issv, rfl⟩ : ∃ s, iss = some s := by
    cases iss with
    | none => simp at hiss
    | some s => exact ⟨s, rfl⟩
  simp only [Bool.and_eq_true] at hiss
  have hissE : issv.isEmpty = false := by simpa using hiss.1
  have hnonI : non.isEmpty = false := by simpa using hnonE
  rw [msgLines, suffixLines_eq _ _ _ (ne_some_nil exp hexp) (ne_some_nil nb hnb)
    (ne_some_nil rid hrid)]
  have hren : renderChain (SiweMessage.mk sch dom addr stmt uri ver (Sum.inl chain) non
      (some issv) exp nb rid res).chainId = natToStr chain := rfl
  have heff : effNonce (SiweMessage.mk sch dom addr stmt uri ver (Sum.inl chain) non
      (some issv) exp nb rid res) seed = non := effNonce_of_ne _ _ hnonI
  have hissEq : effIssued (SiweMessage.mk sch dom addr stmt uri ver (Sum.inl chain) non
      (some issv) exp nb rid res) now = issv := by
    simp [effIssued, hissE]
  rw [hren, heff, hissEq]
  cases sch with
  | none =>
    have hdn : splitSchAux dom = none := by
      simpa [Option.isNone_iff_eq_none] using hsch
    simp only [parseLines, headerLineOf, truthyS, Bool.false_eq_true, if_false,
      stripSuf_append, hdn]
    rw [parseStmt_ok stmt _ _ (by rfl)]
    exact parseFields_ok none dom addr stmt uri ver chain non issv exp nb rid res
  | some s =>
    simp only [Bool.and_eq_true] at hsch
    obtain ⟨⟨hs1, hs2⟩, hs3⟩ := hsch
    have hsE : s.isEmpty = false := by simpa using hs1
    have ht : truthyS (some s) = true := by simp [truthyS, hsE]
    simp only [parseLines, headerLineOf, ht, if_true, Option.getD_some,
      stripSuf_append, splitSchAux_sep s dom hs2, hsE, Bool.false_eq_true, if_false]
    rw [parseStmt_ok stmt _ _ (by rfl)]
    exact parseFields_ok (some s) dom addr stmt uri ver chain non issv exp nb rid res

/-- The explicit-fields constructor parameter (a partial SiweMessage):
the chainId may arrive as a number or a numeric string, the nonce may be
absent. -/
structure MsgFields where
  scheme : Option Str
  domain : Str
  address : Str
  statement : Option Str
  uri : Str
  version : Str
  chainId : Nat ⊕ Str
  nonce : Option Str
  issuedAt : Option Str
  expirationTime : Option Str
  notBefore : Option Str
  requestId : Option Str
  resources : Option (List Str)
deriving DecidableEq

/-- Modelled from the spec: parseIntegerNumber of the external parser
package converts a numeric string to an integer and throws otherwise
(spec section 4.3, "if chainId is a numeric string, convert to
integer"). -/
def parseIntegerNumber (s : Str) : Option Nat := parseNatStr s

/-- Field assignment of the constructor (client.ts lines 82-98): copy the
fields, convert a string chainId through parseIntegerNumber (a failure
there fails construction), and replace a falsy nonce by a generated
one. -/
def assemble (f : MsgFields) (seed : Nat) : Option SiweMessage :=
  match (match f.chainId with
         | .inl n => some (Sum.inl n : Nat ⊕ Str)
         | .inr s => (parseIntegerNumber s).map Sum.inl) with
  | none => none
  | some cid =>
    some
      { scheme := f.scheme, domain := f.domain, address := f.address,
        statement := f.statement, uri := f.uri, version := f.version,
        chainId := cid,
        nonce :=
          (match f.nonce with
           | some s => if s.isEmpty then generateNonce seed else s
           | none => generateNonce seed),
        issuedAt := f.issuedAt, expirationTime := f.expirationTime,
        notBefore := f.notBefore, requestId := f.requestId,
        resources := f.resources }

/-- The mutation toMessage performs on its receiver: the nonce and
issuedAt defaults are written back into the object (client.ts lines
123-125 and 133). -/
def toMessageMut (m : SiweMessage) (seed : Nat) (now : Str) : SiweMessage :=
  { m with nonce := effNonce m seed, issuedAt := some (effIssued m now) }

/-- The explicit-fields construction path (client.ts lines 81-101):
assemble the fields, then validate by serializing and re-parsing; a parse
failure fails construction.  The returned message carries the defaults
that serialization wrote back. -/
def construct (f : MsgFields) (seed : Nat) (now : Str) : Option SiweMessage :=
  match assemble f seed with
  | none => none
  | some m =>
    if (parseMsg (toMessage m seed now)).isSome then some (toMessageMut m seed now) else none

/-- Cleanliness of construction fields, as constrained by the data model:
no field contains a newline, a present scheme is non-empty and colon-free,
without a scheme the domain holds no "://", present optional fields are
non-empty, and the construction instant is a clean timestamp.  The shape
of a supplied nonce and the numeric form of a string chainId are not
constrained here. -/
def fieldsClean (f : MsgFields) (now : Str) : Bool :=
  (match f.scheme with
   | none => (splitSchAux f.domain).isNone
   | some s => !s.isEmpty && s.all (fun c => c ≠ ':') && noNl s) &&
  noNl f.domain && noNl f.address &&
  (match f.statement with | none => true | some s => noNl s) &&
  noNl f.uri && noNl f.version &&
  (match f.nonce with | none => true | some s => noNl s) &&
  (!now.isEmpty && noNl now) &&
  (match f.issuedAt with | none => true | some s => s.isEmpty || noNl s) &&
  (match f.expirationTime with | none => true | some s => !s.isEmpty && noNl s) &&
  (match f.notBefore with | none => true | some s => !s.isEmpty && noNl s) &&
  (match f.requestId with | none => true | some s => !s.isEmpty && noNl s) &&
  (match f.resources with | none => true | some rs => rs.all noNl)

/-- Full structural validity for the round-trip: clean fields whose
supplied nonce (when kept) satisfies the grammar shape and whose chainId
is numeric. -/
def fieldsOK (f : MsgFields) (now : Str) : Bool :=
  fieldsClean f now &&
  (match f.nonce with | none => true | some s => s.isEmpty || nonceOK s) &&
  (match f.chainId with | .inl _ => true | .inr s => (parseNatStr s).isSome)

theorem assemble_eq (f : MsgFields) (seed : Nat) (m0 : SiweMessage)
    (ha : assemble f seed = some m0) :
    ∃ n : Nat,
      m0 = { scheme := f.scheme, domain := f.domain, address := f.address,
             statement := f.statement, uri := f.uri, version := f.version,
             chainId := Sum.inl n,
             nonce :=
               (match f.nonce with
                | some s => if s.isEmpty then generateNonce seed else s
                | none => generateNonce seed),
             issuedAt := f.issuedAt, expirationTime := f.expirationTime,
             notBefore := f.notBefore, requestId := f.requestId,
             resources := f.resources } := by
  cases hcid : f.chainId with
  | inl n =>
    refine ⟨n, ?_⟩
    simp only [assemble, hcid, Option.some.injEq] at ha
    exact ha.symm
  | inr s =>
    cases hp : parseNatStr s with
    | none => simp [assemble, hcid, parseIntegerNumber, hp] at ha
    | some n =>
      refine ⟨n, ?_⟩
      simp only [assemble, hcid, parseIntegerNumber, hp, Option.map_some',
        Option.some.injEq] at ha
      exact ha.symm

theorem effNonce_mut (m0 : SiweMessage) (seed seed2 : Nat) (now : Str)
    (hn : m0.nonce.isEmpty = false) :
    effNonce (toMessageMut m0 seed now) seed2 = effNonce m0 seed := by
  simp [toMessageMut, effNonce, hn]

theorem effIssued_mut (m0 : SiweMessage) (now now2 : Str) (seed : Nat)
    (hi : (effIssued m0 now).isEmpty = false) :
    effIssued (toMessageMut m0 seed now) now2 = effIssued m0 now := by
  show (if (effIssued m0 now).isEmpty then now2 else effIssued m0 now) = effIssued m0 now
  rw [hi]
  rfl

theorem toMessage_mut_eq (m0 : SiweMessage) (seed seed2 : Nat) (now now2 : Str)
    (hn : m0.nonce.isEmpty = false) (hi : (effIssued m0 now).isEmpty = false) :
    toMessage (toMessageMut m0 seed now) seed2 now2 = toMessage m0 seed now := by
  rw [toMessage_lines, toMessage_lines]
  have e1 := effNonce_mut m0 seed seed2 now hn
  have e2 := effIssued_mut m0 now now2 seed hi
  simp only [msgLines, suffixLines, headerLineOf, stmtLines, e1, e2]
  simp [toMessageMut]


theorem construct_char (f : MsgFields) (seed : Nat) (now : Str) (m0 : SiweMessage)
    (hc : fieldsClean f now = true) (ha : assemble f seed = some m0) :
    msgOK (toMessageMut m0 seed now) = true ∧
    m0.nonce.isEmpty = false ∧
    (effIssued m0 now).isEmpty = false ∧
    construct f seed now =
      (if nonceOK m0.nonce then some (toMessageMut m0 seed now) else none) := by
  obtain ⟨n, hm⟩ := assemble_eq f seed m0 ha
  subst hm
  simp only [fieldsClean, Bool.and_eq_true] at hc
  obtain ⟨⟨⟨⟨⟨⟨⟨⟨⟨⟨⟨⟨hsch, hdom⟩, haddr⟩, hstmt⟩, huri⟩, hver⟩, hnonNl⟩, hnow⟩,
    hissC⟩, hexp⟩, hnb⟩, hrid⟩, hres⟩ := hc
  have hnow1 : now.isEmpty = false := by simpa using hnow.1
  have hnow2 : noNl now = true := hnow.2
  have hN_ne : (match f.nonce with
      | some s => if s.isEmpty then generateNonce seed else s
      | none => generateNonce seed : Str).isEmpty = false := by
    cases f.nonce with
    | none => exact isEmpty_eq_false _ (generateNonce_ne_nil seed)
    | some s =>
      by_cases hs : s.isEmpty = true
      · simp only [hs, if_true]
        exact isEmpty_eq_false _ (generateNonce_ne_nil seed)
      · simp only [hs, if_false]
        simpa using hs
  have hN_nl : noNl (match f.nonce with
      | some s => if s.isEmpty then generateNonce seed else s
      | none => generateNonce seed : Str) = true := by
    cases hfn : f.nonce with
    | none => exact generateNonce_noNl seed
    | some s =>
      by_cases hs : s.isEmpty = true
      · simp only [hs, if_true]
        exact generateNonce_noNl seed
      · simp only [hs, if_false]
        rw [hfn] at hnonNl
        exact hnonNl
  have hE_ne : (match f.issuedAt with
      | some s => if s.isEmpty then now else s
      | none => now : Str).isEmpty = false := by
    cases f.issuedAt with
    | none => exact hnow1
    | some s =>
      by_cases hs : s.isEmpty = true
      · simp only [hs, if_true]
        exact hnow1
      · simp only [hs, if_false]
        simpa using hs
  have hE_nl : noNl (match f.issuedAt with
      | some s => if s.isEmpty then now else s
      | none => now : Str) = true := by
    cases hfi : f.issuedAt with
    | none => exact hnow2
    | some s =>
      by_cases hs : s.isEmpty = true
      · simp only [hs, if_true]
        exact hnow2
      · simp only [hs, if_false]
        rw [hfi] at hissC
        rcases (Bool.or_eq_true _ _).mp hissC with h1 | h1
        · exact absurd h1 hs
        · exact h1
  set M0 : SiweMessage :=
    { scheme := f.scheme, domain := f.domain, address := f.address,
      statement := f.statement, uri := f.uri, version := f.version,
      chainId := Sum.inl n,
      nonce :=
        (match f.nonce with
         | some s => if s.isEmpty then generateNonce seed else s
         | none => generateNonce seed),
      issuedAt := f.issuedAt, expirationTime := f.expirationTime,
      notBefore := f.notBefore, requestId := f.requestId,
      resources := f.resources } with hM0
  have hN_neM : M0.nonce.isEmpty = false := hN_ne
  have hN_nlM : noNl M0.nonce = true := hN_nl
  have hE_neM : (effIssued M0 now).isEmpty = false := hE_ne
  have hE_nlM : noNl (effIssued M0 now) = true := hE_nl
  have heff : effNonce M0 seed = M0.nonce := effNonce_of_ne _ _ hN_neM
  have hmok : msgOK (toMessageMut M0 seed now) = true := by
    have hN2 : ¬((match f.nonce with
        | some s => if s = [] then generateNonce seed else s
        | none => generateNonce seed : Str) = []) := by
      simpa using hN_ne
    simp only [hM0, toMessageMut, msgOK, effNonce, effIssued]
    simp [hN_ne, hN_nl, hE_ne, hE_nl, hsch, hdom, haddr, hstmt, huri, hver,
      hexp, hnb, hrid, hres]
    refine ⟨⟨⟨?_, ?_⟩, ?_⟩, ?_, ?_⟩
    · simpa using hsch
    · rw [if_neg hN2]
      exact hN2
    · rw [if_neg hN2]
      simpa using hN_nl
    · simpa using hE_ne
    · simpa using hE_nl
  refine ⟨hmok, hN_neM, hE_neM, ?_⟩
  have hval : parseMsg (toMessage M0 seed now) =
      (if nonceOK M0.nonce then some (toMessageMut M0 seed now) else none) := by
    rw [← toMessage_mut_eq M0 seed seed now now hN_neM hE_neM,
      parse_toMessage _ seed now hmok]
    have hproj : (toMessageMut M0 seed now).nonce = M0.nonce := heff
    rw [hproj]
  simp only [construct, ha, hval]
  by_cases hok : nonceOK M0.nonce = true
  · simp [hok]
  · simp [hok]

/-- Error kinds of the verification pipeline (types.ts SiweErrorType),
restricted to those verify can produce. -/
inductive SiweErrorType
  | expiredMessage
  | invalidSignature
  | domainMismatch
  | schemeMismatch
  | nonceMismatch
  | notYetValidMessage
deriving DecidableEq

/-- An error value delivered by a failing verification: the unknown-key
Error objects, a SiweError with its optional expected and received
strings, or an error propagated from an external collaborator or the
caller's fallback. -/
inductive VerifyError
  | invalidParamKeys (ks : List Str)
  | invalidOptKeys (ks : List Str)
  | siwe (t : SiweErrorType) (expected received : Option Str)
  | ext (tag : Str)
deriving DecidableEq

/-- A settled SiweResponse: the success flag, the message (data field) and
the optional error. -/
structure SiweResult where
  success : Bool
  data : SiweMessage
  error : Option VerifyError
deriving DecidableEq

/-- One settlement attempt of the verify promise: a resolve or a reject
carrying a response.  The promise keeps only the first attempt. -/
inductive Settle
  | res (r : SiweResult)
  | rej (r : SiweResult)
deriving DecidableEq

/-- The response a settlement attempt carries. -/
def Settle.result : Settle → SiweResult
  | .res r => r
  | .rej r => r

/-- The SiweError kind of a response, none for other error shapes. -/
def SiweResult.errKind (r : SiweResult) : Option SiweErrorType :=
  match r.error with
  | some (.siwe t _ _) => some t
  | _ => none

/-- The verification parameters (VerifyParams): the required signature,
the optional binding overrides and time, plus the unrecognized keys the
caller also passed.  checkInvalidKeys of utils.ts is modelled from the
spec (section 4.1): it returns exactly the unrecognized keys. -/
structure VerifyParams where
  signature : Str
  scheme : Option Str
  domain : Option Str
  nonce : Option Str
  time : Option Str
  extraKeys : List Str
deriving DecidableEq

/-- The verification options (VerifyOpts): suppressExceptions plus the
unrecognized keys; the provider and the fallback are modelled in the
environment. -/
structure VerifyOpts where
  suppressExceptions : Bool
  extraKeys : List Str
deriving DecidableEq

/-- Modelled from the spec: the external collaborators one verification
call consults — the Date built-ins (parseDate for new Date(string).getTime(),
nowMs for the current instant, iso for toISOString), the ethers
verifyMessage recovery as a function of the serialized message and the
signature (none models a throw, which the code catches and logs), the
settled contract-wallet check (checkContractWalletSignature of utils.ts:
a boolean resolution or a rejected error), and the settled response of the
caller's verificationFallback (none when no fallback was supplied or it
produced no response). -/
structure VerifyEnv where
  parseDate : Str → Int
  nowMs : Int
  iso : Int → Str
  recovered : Str → Str → Option Str
  contractOk : Except Str Bool
  fallback : Option SiweResult

def ltLit : Str := (" < ").toList
def geLit : Str := (" >= ").toList
def resolvedLit : Str := ("Resolved address to be ").toList

/-- The fail helper of verify (client.ts 197-203): resolve the failed
response when suppressExceptions is set, reject it otherwise. -/
def failS (o : VerifyOpts) (r : SiweResult) : Settle :=
  if o.suppressExceptions then .res r else .rej r

/-- Parameter-key validation stage (client.ts 205-217). -/
def keysStageP (m : SiweMessage) (p : VerifyParams) (o : VerifyOpts) : List Settle :=
  if p.extraKeys.isEmpty then []
  else [failS o ⟨false, m, some (.invalidParamKeys p.extraKeys)⟩]

/-- Option-key validation stage (client.ts 219-231). -/
def keysStageO (m : SiweMessage) (o : VerifyOpts) : List Settle :=
  if o.extraKeys.isEmpty then []
  else [failS o ⟨false, m, some (.invalidOptKeys o.extraKeys)⟩]

/-- Scheme binding stage (client.ts 236-246): a truthy scheme override
that differs from the message's scheme fails. -/
def schemeStage (m : SiweMessage) (p : VerifyParams) (o : VerifyOpts) : List Settle :=
  match p.scheme with
  | none => []
  | some s =>
    if s.isEmpty then []
    else if m.scheme = some s then []
    else [failS o ⟨false, m, some (.siwe .schemeMismatch (some s) m.scheme)⟩]

/-- Domain binding stage (client.ts 248-259). -/
def domainStage (m : SiweMessage) (p : VerifyParams) (o : VerifyOpts) : List Settle :=
  match p.domain with
  | none => []
  | some d =>
    if d.isEmpty then []
    else if m.domain = d then []
    else [failS o ⟨false, m, some (.siwe .domainMismatch (some d) (some m.domain))⟩]

/-- Nonce binding stage (client.ts 261-268). -/
def nonceStage (m : SiweMessage) (p : VerifyParams) (o : VerifyOpts) : List Settle :=
  match p.nonce with
  | none => []
  | some x =>
    if x.isEmpty then []
    else if m.nonce = x then []
    else [failS o ⟨false, m, some (.siwe .nonceMismatch (some x) (some m.nonce))⟩]

/-- The instant the temporal checks compare against (client.ts 271):
new Date(time || new Date()). -/
def checkTimeOf (p : VerifyParams) (env : VerifyEnv) : Int :=
  match p.time with
  | some t => if t.isEmpty then env.nowMs else env.parseDate t
  | none => env.nowMs

/-- Expiration stage (client.ts 274-287): a truthy expirationTime whose
instant is at or before the check time fails ExpiredMessage. -/
def expStage (m : SiweMessage) (p : VerifyParams) (o : VerifyOpts) (env : VerifyEnv) :
    List Settle :=
  match m.expirationTime with
  | none => []
  | some e =>
    if e.isEmpty then []
    else if checkTimeOf p env ≥ env.parseDate e then
      [failS o ⟨false, m, some (.siwe .expiredMessage
        (some (env.iso (checkTimeOf p env) ++ ltLit ++ env.iso (env.parseDate e)))
        (some (env.iso (checkTimeOf p env) ++ geLit ++ env.iso (env.parseDate e))))⟩]
    else []

/-- Not-before stage (client.ts 290-303): a truthy notBefore whose instant
is after the check time fails NotYetValidMessage; the boundary instant
passes. -/
def nbStage (m : SiweMessage) (p : VerifyParams) (o : VerifyOpts) (env : VerifyEnv) :
    List Settle :=
  match m.notBefore with
  | none => []
  | some nb =>
    if nb.isEmpty then []
    else if checkTimeOf p env < env.parseDate nb then
      [failS o ⟨false, m, some (.siwe .notYetValidMessage
        (some (env.iso (checkTimeOf p env) ++ geLit ++ env.iso (env.parseDate nb)))
        (some (env.iso (checkTimeOf p env) ++ ltLit ++ env.iso (env.parseDate nb))))⟩]
    else []

/-- The settlement attempts of the key-validation and binding stages, in
program order. -/
def bindSettles (m : SiweMessage) (p : VerifyParams) (o : VerifyOpts) : List Settle :=
  keysStageP m p o ++ keysStageO m o ++ schemeStage m p o ++ domainStage m p o ++
  nonceStage m p o

/-- All settlement attempts of the stages before signature recovery, in
program order.  The serialization stage (client.ts 304-313) is total in
this embedding and can contribute no failure. -/
def preSettles (m : SiweMessage) (p : VerifyParams) (o : VerifyOpts) (env : VerifyEnv) :
    List Settle :=
  bindSettles m p o ++ expStage m p o env ++ nbStage m p o env

/-- The settled contract-wallet proof (client.ts 329-357): a true
resolution succeeds, a false resolution fails InvalidSignature with the
recovered address, a rejection fails with the propagated error. -/
def e1271Result (m : SiweMessage) (env : VerifyEnv) (addr : Option Str) : SiweResult :=
  match env.contractOk with
  | .ok true => ⟨true, m, none⟩
  | .ok false => ⟨false, m, some (.siwe .invalidSignature addr
      (some (resolvedLit ++ m.address)))⟩
  | .error e => ⟨false, m, some (.ext e)⟩

/-- The settlement of the final join (client.ts 359-379): a fallback
response, when present, is the terminal result regardless of the
contract-wallet proof; otherwise the contract-wallet proof's result is. -/
def endSettles (m : SiweMessage) (o : VerifyOpts) (env : VerifyEnv) (addr : Option Str) :
    List Settle :=
  match env.fallback with
  | some fr => if fr.success then [.res fr] else [failS o fr]
  | none =>
    if (e1271Result m env addr).success then [.res (e1271Result m env addr)]
    else [failS o (e1271Result m env addr)]

/-- The observable trace of one verify call: every settlement attempt in
program order, and whether signature recovery and the contract-wallet
check were evaluated. -/
structure VerifyTrace where
  settles : List Settle
  recoveryInvoked : Bool
  contractInvoked : Bool
deriving DecidableEq

/-- The verification pipeline (SiweMessage.verify, client.ts 192-382) as a
trace semantics.  The fail helper resolves or rejects but does not stop
execution, so every stage contributes its settlement attempts in program
order; signature recovery always runs; on a direct address match the
executor returns, otherwise the contract-wallet check and the fallback
join settle last. -/
def verifyTrace (m : SiweMessage) (p : VerifyParams) (o : VerifyOpts) (env : VerifyEnv)
    (seed : Nat) : VerifyTrace :=
  let pre := preSettles m p o env
  let addr := env.recovered (toMessage m seed (env.iso env.nowMs)) p.signature
  if addr = some m.address then
    ⟨pre ++ [.res ⟨true, m, none⟩], true, false⟩
  else
    ⟨pre ++ endSettles m o env addr, true, true⟩

/-- The call's terminal result: the first settlement attempt wins, later
resolves and rejects on the already-settled promise are discarded. -/
def VerifyTrace.outcome (t : VerifyTrace) : Option Settle := t.settles.head?

theorem recovery_always (m : SiweMessage) (p : VerifyParams) (o : VerifyOpts)
    (env : VerifyEnv) (seed : Nat) :
    (verifyTrace m p o env seed).recoveryInvoked = true := by
  unfold verifyTrace
  by_cases h : env.recovered (toMessage m seed (env.iso env.nowMs)) p.signature
      = some m.address <;> simp [h]

theorem contract_of_match (m : SiweMessage) (p : VerifyParams) (o : VerifyOpts)
    (env : VerifyEnv) (seed : Nat)
    (h : env.recovered (toMessage m seed (env.iso env.nowMs)) p.signature = some m.address) :
    (verifyTrace m p o env seed).contractInvoked = false := by
  unfold verifyTrace
  simp [h]

theorem contract_of_mismatch (m : SiweMessage) (p : VerifyParams) (o : VerifyOpts)
    (env : VerifyEnv) (seed : Nat)
    (h : env.recovered (toMessage m seed (env.iso env.nowMs)) p.signature ≠ some m.address) :
    (verifyTrace m p o env seed).contractInvoked = true := by
  unfold verifyTrace
  simp [h]

theorem outcome_of_pre_cons (m : SiweMessage) (p : VerifyParams) (o : VerifyOpts)
    (env : VerifyEnv) (seed : Nat) (s : Settle) (rest : List Settle)
    (h : preSettles m p o env = s :: rest) :
    (verifyTrace m p o env seed).outcome = some s := by
  unfold verifyTrace VerifyTrace.outcome
  by_cases haddr : env.recovered (toMessage m seed (env.iso env.nowMs)) p.signature
      = some m.address <;> simp [haddr, h]

theorem outcome_of_pre_nil (m : SiweMessage) (p : VerifyParams) (o : VerifyOpts)
    (env : VerifyEnv) (seed : Nat) (h : preSettles m p o env = []) :
    (verifyTrace m p o env seed).outcome =
      (if env.recovered (toMessage m seed (env.iso env.nowMs)) p.signature = some m.address
       then some (Settle.res ⟨true, m, none⟩)
       else (endSettles m o env
         (env.recovered (toMessage m seed (env.iso env.nowMs)) p.signature)).head?) := by
  unfold verifyTrace VerifyTrace.outcome
  by_cases haddr : env.recovered (toMessage m seed (env.iso env.nowMs)) p.signature
      = some m.address <;> simp [haddr, h]

def c1m : SiweMessage :=
  { scheme := none, domain := ("example.com").toList, address := ("0xAb").toList,
    statement := none, uri := ("u").toList, version := ("1").toList,
    chainId := .inl 1, nonce := ("abcdefgh").toList, issuedAt := some ("t").toList,
    expirationTime := none, notBefore := none, requestId := none, resources := none }

def c1p : VerifyParams :=
  { signature := ("sig").toList, scheme := none, domain := some (("evil.com").toList),
    nonce := none, time := none, extraKeys := [] }

def c1o : VerifyOpts := { suppressExceptions := false, extraKeys := [] }

def c1env : VerifyEnv :=
  { parseDate := fun _ => 0, nowMs := 0, iso := fun _ => [],
    recovered := fun _ _ => some (("0xOther").toList), contractOk := .ok false,
    fallback := none }

/-- C1, counterexample: on a call whose domain override mismatches, the
call settles on the DomainMismatch rejection, yet signature recovery is
evaluated and the contract-wallet check is evaluated — later stages do run
after the failing stage, contradicting the claim that they are never
evaluated. -/
theorem c1_later_stages_still_run :
    (verifyTrace c1m c1p c1o c1env 0).outcome =
      some (.rej ⟨false, c1m, some (.siwe .domainMismatch (some (("evil.com").toList))
        (some c1m.domain))⟩) ∧
    (verifyTrace c1m c1p c1o c1env 0).recoveryInvoked = true ∧
    (verifyTrace c1m c1p c1o c1env 0).contractInvoked = true := by
  decide

/-- C1, amended: once a stage has failed, the call still settles on the
first failing stage's settlement (later attempts on the one-shot promise
are discarded), but later stages are still evaluated: signature recovery
always runs, and the contract-wallet check runs whenever the recovered
address does not match. -/
theorem c1_first_failure_settles (m : SiweMessage) (p : VerifyParams) (o : VerifyOpts)
    (env : VerifyEnv) (seed : Nat) (h : preSettles m p o env ≠ []) :
    (verifyTrace m p o env seed).outcome = (preSettles m p o env).head? ∧
    (verifyTrace m p o env seed).recoveryInvoked = true ∧
    (env.recovered (toMessage m seed (env.iso env.nowMs)) p.signature ≠ some m.address →
      (verifyTrace m p o env seed).contractInvoked = true) := by
  obtain ⟨s, rest, hsr⟩ := List.exists_cons_of_ne_nil h
  refine ⟨?_, recovery_always m p o env seed,
    fun hne => contract_of_mismatch m p o env seed hne⟩
  rw [hsr]
  simp [outcome_of_pre_cons m p o env seed s rest hsr]

/-- C1, witness for the amended theorem at a concrete failing call. -/
theorem c1_first_failure_settles_witness :
    (verifyTrace c1m c1p c1o c1env 0).outcome = (preSettles c1m c1p c1o c1env).head? ∧
    (verifyTrace c1m c1p c1o c1env 0).recoveryInvoked = true ∧
    (verifyTrace c1m c1p c1o c1env 0).contractInvoked = true :=
  ⟨(c1_first_failure_settles c1m c1p c1o c1env 0 (by decide)).1,
   (c1_first_failure_settles c1m c1p c1o c1env 0 (by decide)).2.1,
   (c1_first_failure_settles c1m c1p c1o c1env 0 (by decide)).2.2 (by decide)⟩

/-- C2: a call with a mismatched truthy domain override on an expired
message settles with the DomainMismatch failure, and its terminal result
never carries the ExpiredMessage kind — the earlier stage's error is the
one reported. -/
theorem c2_domain_beats_expired (m : SiweMessage) (p : VerifyParams) (o : VerifyOpts)
    (env : VerifyEnv) (seed : Nat) (d e : Str)
    (h1 : p.extraKeys = []) (h2 : o.extraKeys = [])
    (h3 : schemeStage m p o = [])
    (hd : p.domain = some d) (hdne : d ≠ []) (hdm : m.domain ≠ d)
    (hexp : m.expirationTime = some e) (hene : e ≠ [])
    (hle : env.parseDate e ≤ checkTimeOf p env) :
    (verifyTrace m p o env seed).outcome =
      some (failS o ⟨false, m, some (.siwe .domainMismatch (some d) (some m.domain))⟩) ∧
    (∀ st, (verifyTrace m p o env seed).outcome = some st →
      st.result.errKind ≠ some SiweErrorType.expiredMessage) := by
  have hpre : ∃ rest, preSettles m p o env =
      failS o ⟨false, m, some (.siwe .domainMismatch (some d) (some m.domain))⟩ :: rest := by
    refine ⟨nonceStage m p o ++ (expStage m p o env ++ nbStage m p o env), ?_⟩
    simp [preSettles, bindSettles, keysStageP, keysStageO, h1, h2, h3, domainStage, hd,
      isEmpty_eq_false d hdne, hdm]
  obtain ⟨rest, hpre⟩ := hpre
  have hout := outcome_of_pre_cons m p o env seed _ _ hpre
  refine ⟨hout, ?_⟩
  intro st hst
  rw [hout, Option.some_inj] at hst
  subst hst
  unfold failS
  split <;> simp [Settle.result, SiweResult.errKind]

def c2m : SiweMessage := { c1m with expirationTime := some (("2020").toList) }

/-- C2, witness at a concrete expired message with a mismatched domain
override. -/
theorem c2_domain_beats_expired_witness :
    (verifyTrace c2m c1p c1o c1env 0).outcome =
      some (failS c1o ⟨false, c2m, some (.siwe .domainMismatch
        (some (("evil.com").toList)) (some c2m.domain))⟩) ∧
    (failS c1o ⟨false, c2m, some (.siwe .domainMismatch
        (some (("evil.com").toList)) (some c2m.domain))⟩).result.errKind ≠
      some SiweErrorType.expiredMessage := by
  have H := c2_domain_beats_expired c2m c1p c1o c1env 0 (("evil.com").toList)
    (("2020").toList) rfl rfl (by decide) rfl (by decide) (by decide) rfl (by decide)
    (by decide)
  exact ⟨H.1, H.2 _ H.1⟩

/-- C3: when every earlier stage passes and the address recovered from
the serialized message and the signature equals the message's address
exactly, the call resolves successfully with the message as data and the
contract-wallet adapter is never invoked. -/
theorem c3_direct_match (m : SiweMessage) (p : VerifyParams) (o : VerifyOpts)
    (env : VerifyEnv) (seed : Nat)
    (hpre : preSettles m p o env = [])
    (hrec : env.recovered (toMessage m seed (env.iso env.nowMs)) p.signature
      = some m.address) :
    (verifyTrace m p o env seed).outcome = some (.res ⟨true, m, none⟩) ∧
    (verifyTrace m p o env seed).contractInvoked = false := by
  refine ⟨?_, contract_of_match m p o env seed hrec⟩
  rw [outcome_of_pre_nil m p o env seed hpre, if_pos hrec]

def c3env : VerifyEnv :=
  { parseDate := fun _ => 0, nowMs := 0, iso := fun _ => [],
    recovered := fun _ _ => some (("0xAb").toList), contractOk := .ok false,
    fallback := none }

def c3p : VerifyParams :=
  { signature := ("sig").toList, scheme := none, domain := none,
    nonce := none, time := none, extraKeys := [] }

/-- C3, witness at a concrete call whose recovered address matches. -/
theorem c3_direct_match_witness :
    (verifyTrace c1m c3p c1o c3env 0).outcome = some (.res ⟨true, c1m, none⟩) ∧
    (verifyTrace c1m c3p c1o c3env 0).contractInvoked = false :=
  c3_direct_match c1m c3p c1o c3env 0 (by decide) (by decide)

/-- C4: when the recovered address does not match and a supplied fallback
settled with a response, that response is the call's terminal result
regardless of the contract-wallet proof's outcome (a successful fallback
resolves successfully even when the contract-wallet proof failed); with no
fallback, the contract-wallet proof's result is terminal. -/
theorem c4_fallback_precedence (m : SiweMessage) (p : VerifyParams) (o : VerifyOpts)
    (env : VerifyEnv) (seed : Nat) (addr : Option Str)
    (hpre : preSettles m p o env = [])
    (haddr : env.recovered (toMessage m seed (env.iso env.nowMs)) p.signature = addr)
    (hne : addr ≠ some m.address) :
    (∀ fr, env.fallback = some fr →
      (verifyTrace m p o env seed).outcome =
        some (if fr.success then Settle.res fr else failS o fr) ∧
      ((verifyTrace m p o env seed).outcome).map Settle.result = some fr) ∧
    (env.fallback = none →
      (verifyTrace m p o env seed).outcome =
        some (if (e1271Result m env addr).success then Settle.res (e1271Result m env addr)
              else failS o (e1271Result m env addr))) := by
  have ho := outcome_of_pre_nil m p o env seed hpre
  rw [haddr, if_neg hne] at ho
  constructor
  · intro fr hfr
    have h1 : (verifyTrace m p o env seed).outcome =
        some (if fr.success then Settle.res fr else failS o fr) := by
      rw [ho]
      by_cases hs : fr.success = true <;> simp [endSettles, hfr, hs]
    refine ⟨h1, ?_⟩
    rw [h1]
    by_cases hs : fr.success = true
    · simp [hs, Settle.result]
    · simp only [hs, Bool.false_eq_true, if_false, failS, Option.map_some']
      split <;> simp [Settle.result]
  · intro hfb
    rw [ho]
    by_cases hs : (e1271Result m env addr).success = true <;> simp [endSettles, hfb, hs]

def c4env : VerifyEnv :=
  { parseDate := fun _ => 0, nowMs := 0, iso := fun _ => [],
    recovered := fun _ _ => some (("0xOther").toList), contractOk := .ok false,
    fallback := some ⟨true, c1m, none⟩ }

/-- C4, witness: a failing contract-wallet proof together with a
successful fallback response terminates the call successfully. -/
theorem c4_fallback_precedence_witness :
    (verifyTrace c1m c3p c1o c4env 0).outcome = some (Settle.res ⟨true, c1m, none⟩) ∧
    ((verifyTrace c1m c3p c1o c4env 0).outcome).map Settle.result =
      some ⟨true, c1m, none⟩ := by
  have H := (c4_fallback_precedence c1m c3p c1o c4env 0 (some (("0xOther").toList))
    (by decide) (by decide) (by decide)).1 ⟨true, c1m, none⟩ rfl
  exact ⟨by simpa using H.1, H.2⟩

/-- C5: with the binding stages passing and an explicit check time, a
message whose expirationTime parses to the same instant as the check time
fails ExpiredMessage (the boundary is expired — exclusive upper bound),
while a notBefore parsing to the same instant as the check time passes the
not-before stage (the boundary is valid — inclusive lower bound). -/
theorem c5_boundaries (m : SiweMessage) (p : VerifyParams) (o : VerifyOpts)
    (env : VerifyEnv) (seed : Nat) (t : Str)
    (hbind : bindSettles m p o = [])
    (ht : p.time = some t) (htne : t ≠ []) :
    (∀ e, m.expirationTime = some e → e ≠ [] → env.parseDate t = env.parseDate e →
      (verifyTrace m p o env seed).outcome =
        some (failS o ⟨false, m, some (.siwe .expiredMessage
          (some (env.iso (checkTimeOf p env) ++ ltLit ++ env.iso (env.parseDate e)))
          (some (env.iso (checkTimeOf p env) ++ geLit ++ env.iso (env.parseDate e))))⟩)) ∧
    (∀ v, m.notBefore = some v → v ≠ [] → env.parseDate t = env.parseDate v →
      nbStage m p o env = []) := by
  have hct : checkTimeOf p env = env.parseDate t := by
    simp [checkTimeOf, ht, isEmpty_eq_false t htne]
  constructor
  · intro e he hene heq
    have hexp : expStage m p o env = [failS o ⟨false, m, some (.siwe .expiredMessage
        (some (env.iso (checkTimeOf p env) ++ ltLit ++ env.iso (env.parseDate e)))
        (some (env.iso (checkTimeOf p env) ++ geLit ++ env.iso (env.parseDate e))))⟩] := by
      simp [expStage, he, isEmpty_eq_false e hene, hct, heq]
    exact outcome_of_pre_cons m p o env seed _ (nbStage m p o env)
      (by simp [preSettles, hbind, hexp])
  · intro v hv hvne heq
    simp [nbStage, hv, isEmpty_eq_false v hvne, hct, heq]

def c5m : SiweMessage :=
  { c1m with expirationTime := some (("2024").toList), notBefore := some (("2024").toList) }

def c5p : VerifyParams := { c3p with time := some (("2024").toList) }

/-- C5, witness at a concrete message whose expirationTime and notBefore
both parse to the check instant. -/
theorem c5_boundaries_witness :
    (verifyTrace c5m c5p c1o c1env 0).outcome =
      some (failS c1o ⟨false, c5m, some (.siwe .expiredMessage
        (some (c1env.iso (checkTimeOf c5p c1env) ++ ltLit ++
          c1env.iso (c1env.parseDate (("2024").toList))))
        (some (c1env.iso (checkTimeOf c5p c1env) ++ geLit ++
          c1env.iso (c1env.parseDate (("2024").toList)))))⟩) ∧
    nbStage c5m c5p c1o c1env = [] := by
  have H := c5_boundaries c5m c5p c1o c1env 0 (("2024").toList) (by decide) rfl (by decide)
  exact ⟨H.1 (("2024").toList) rfl (by decide) rfl,
    H.2 (("2024").toList) rfl (by decide) rfl⟩

/-- Turn a rejection into a resolution with the same response; a
resolution is unchanged. -/
def toResolved : Settle → Settle
  | .res r => .res r
  | .rej r => .res r

theorem keysStageP_map (m : SiweMessage) (p : VerifyParams) (ek : List Str) :
    keysStageP m p ⟨true, ek⟩ = (keysStageP m p ⟨false, ek⟩).map toResolved := by
  unfold keysStageP
  split_ifs <;> simp [failS, toResolved]


theorem keysStageO_map (m : SiweMessage) (ek : List Str) :
    keysStageO m ⟨true, ek⟩ = (keysStageO m ⟨false, ek⟩).map toResolved := by
  unfold keysStageO
  split_ifs <;> simp [failS, toResolved]

theorem schemeStage_map (m : SiweMessage) (p : VerifyParams) (ek : List Str) :
    schemeStage m p ⟨true, ek⟩ = (schemeStage m p ⟨false, ek⟩).map toResolved := by
  cases hx : p.scheme with
  | none => simp [schemeStage, hx]
  | some s => simp only [schemeStage, hx]; split_ifs <;> simp [failS, toResolved]

theorem domainStage_map (m : SiweMessage) (p : VerifyParams) (ek : List Str) :
    domainStage m p ⟨true, ek⟩ = (domainStage m p ⟨false, ek⟩).map toResolved := by
  cases hx : p.domain with
  | none => simp [domainStage, hx]
  | some d => simp only [domainStage, hx]; split_ifs <;> simp [failS, toResolved]

theorem nonceStage_map (m : SiweMessage) (p : VerifyParams) (ek : List Str) :
    nonceStage m p ⟨true, ek⟩ = (nonceStage m p ⟨false, ek⟩).map toResolved := by
  cases hx : p.nonce with
  | none => simp [nonceStage, hx]
  | some x => simp only [nonceStage, hx]; split_ifs <;> simp [failS, toResolved]

theorem expStage_map (m : SiweMessage) (p : VerifyParams) (env : VerifyEnv) (ek : List Str) :
    expStage m p ⟨true, ek⟩ env = (expStage m p ⟨false, ek⟩ env).map toResolved := by
  cases hx : m.expirationTime with
  | none => simp [expStage, hx]
  | some e => simp only [expStage, hx]; split_ifs <;> simp [failS, toResolved]

theorem nbStage_map (m : SiweMessage) (p : VerifyParams) (env : VerifyEnv) (ek : List Str) :
    nbStage m p ⟨true, ek⟩ env = (nbStage m p ⟨false, ek⟩ env).map toResolved := by
  cases hx : m.notBefore with
  | none => simp [nbStage, hx]
  | some v => simp only [nbStage, hx]; split_ifs <;> simp [failS, toResolved]

theorem endSettles_map (m : SiweMessage) (env : VerifyEnv) (addr : Option Str)
    (ek : List Str) :
    endSettles m ⟨true, ek⟩ env addr = (endSettles m ⟨false, ek⟩ env addr).map toResolved := by
  cases hx : env.fallback with
  | some fr => simp only [endSettles, hx]; split_ifs <;> simp [failS, toResolved]
  | none => simp only [endSettles, hx]; split_ifs <;> simp [failS, toResolved]

theorem verify_suppress_settles (m : SiweMessage) (p : VerifyParams) (env : VerifyEnv)
    (seed : Nat) (ek : List Str) :
    (verifyTrace m p ⟨true, ek⟩ env seed).settles =
      ((verifyTrace m p ⟨false, ek⟩ env seed).settles).map toResolved := by
  unfold verifyTrace
  by_cases haddr : env.recovered (toMessage m seed (env.iso env.nowMs)) p.signature
      = some m.address <;>
    simp [haddr, preSettles, bindSettles, List.map_append, keysStageP_map, keysStageO_map,
      schemeStage_map, domainStage_map, nonceStage_map, expStage_map, nbStage_map,
      endSettles_map, toResolved]

/-- C9: the same response value is delivered under both disciplines —
switching only suppressExceptions from false to true turns a rejection
with a failed response into a resolution with the very same response, and
leaves resolutions unchanged; only the delivery channel differs. -/
theorem c9_suppress_same_error (m : SiweMessage) (p : VerifyParams) (env : VerifyEnv)
    (seed : Nat) (ek : List Str) :
    (∀ r, (verifyTrace m p ⟨false, ek⟩ env seed).outcome = some (.rej r) →
      (verifyTrace m p ⟨true, ek⟩ env seed).outcome = some (.res r)) ∧
    (∀ r, (verifyTrace m p ⟨false, ek⟩ env seed).outcome = some (.res r) →
      (verifyTrace m p ⟨true, ek⟩ env seed).outcome = some (.res r)) := by
  have h := verify_suppress_settles m p env seed ek
  constructor <;> intro r hr <;>
  · unfold VerifyTrace.outcome at *
    rw [h, List.head?_map, hr]
    rfl

/-- C9, witness: the concrete domain-mismatch rejection is delivered as a
resolution with the same error once suppressExceptions is set. -/
theorem c9_suppress_same_error_witness :
    (verifyTrace c1m c1p ⟨true, []⟩ c1env 0).outcome =
      some (.res ⟨false, c1m, some (.siwe .domainMismatch (some (("evil.com").toList))
        (some c1m.domain))⟩) :=
  (c9_suppress_same_error c1m c1p c1env 0 []).1 _ (by decide)

/-- The header line as the specification states it: the domain, prefixed
by "scheme://" exactly when the scheme is present, followed by the fixed
sign-in sentence. -/
def specHeader (m : SiweMessage) : Str :=
  (match m.scheme with
   | some s => s ++ sepLit ++ m.domain
   | none => m.domain) ++ hdrSufLit

/-- The exact line order of the serializer as the specification states it
(spec section 4.2): header, address, a blank line, the statement line when
the statement is present (an explicit empty statement is a present empty
line, distinct from an absent one), a blank line, the "URI:", "Version:",
"Chain ID:", "Nonce:" and "Issued At:" lines, the optional "Expiration
Time:", "Not Before:" and "Request ID:" lines, and the "Resources:" block
with one dashed line per entry in sequence order.  Presence of an optional
string field means a non-empty value, per the data model's constraints. -/
def specOptLines (lit : Str) : Option Str → List Str
  | some e => [lit ++ e]
  | none => []

def specSerializeLines (m : SiweMessage) (seed : Nat) (now : Str) : List Str :=
  [specHeader m, m.address] ++
  ([[]] ++ (match m.statement with | some s => [s] | none => []) ++ [[]]) ++
  [uriLit ++ m.uri, verLit ++ m.version, chainLit ++ renderChain m.chainId,
   nonceLit ++ effNonce m seed, issuedLit ++ effIssued m now] ++
  specOptLines expLit m.expirationTime ++
  specOptLines nbLit m.notBefore ++
  specOptLines ridLit m.requestId ++
  (match m.resources with
   | some rs => resourcesLit :: rs.map (fun x => dashLit ++ x)
   | none => [])

/-- The specification's serializer: the lines above, newline-joined, with
no trailing characters beyond the final line. -/
def specSerialize (m : SiweMessage) (seed : Nat) (now : Str) : Str :=
  joinNl (specSerializeLines m seed now)

theorem header_match (m : SiweMessage) (h : m.scheme ≠ some []) :
    headerLineOf m = specHeader m := by
  unfold headerLineOf specHeader
  cases hsch : m.scheme with
  | none => rfl
  | some s =>
    cases s with
    | nil => exact absurd hsch h
    | cons a l => simp [truthyS]

theorem stmt_match (st : Option Str) :
    stmtLines st = [[]] ++ (match st with | some s => [s] | none => []) ++ [[]] := by
  cases st <;> rfl

theorem opt_match (lit : Str) (o : Option Str) (h : o ≠ some []) :
    (if truthyS o then [lit ++ o.getD []] else []) = specOptLines lit o := by
  cases o with
  | none => rfl
  | some v =>
    cases v with
    | nil => exact absurd rfl h
    | cons a l => simp [truthyS, specOptLines]

/-- C6: for every message obeying the data model's constraints on its
optional string fields, the serializer emits exactly the specified line
order, newline-joined with no trailing characters; an explicit
empty-string statement is rendered as present, distinctly from an absent
statement. -/
theorem c6_serializer_line_order (m : SiweMessage) (seed : Nat) (now : Str)
    (hs : m.scheme ≠ some []) (he : m.expirationTime ≠ some [])
    (hnb : m.notBefore ≠ some []) (hr : m.requestId ≠ some []) :
    toMessage m seed now = specSerialize m seed now := by
  rw [toMessage_lines, specSerialize]
  have hlines : msgLines m seed now = specSerializeLines m seed now := by
    simp only [msgLines, specSerializeLines, suffixLines, header_match m hs, stmt_match,
      opt_match expLit _ he, opt_match nbLit _ hnb, opt_match ridLit _ hr]
    simp [List.append_assoc]
  rw [hlines]

def c6m : SiweMessage :=
  { scheme := some (("https").toList), domain := ("example.com").toList,
    address := ("0xAb").toList, statement := some [], uri := ("u").toList,
    version := ("1").toList, chainId := .inl 137, nonce := ("abcdefgh").toList,
    issuedAt := some (("t").toList), expirationTime := some (("2030").toList),
    notBefore := some (("2020").toList), requestId := some (("rid").toList),
    resources := some [("a:b").toList, ("c:d").toList] }

/-- C6, witness at a concrete message exercising every optional field,
with an explicit empty statement. -/
theorem c6_serializer_line_order_witness :
    toMessage c6m 0 (("now").toList) = specSerialize c6m 0 (("now").toList) :=
  c6_serializer_line_order c6m 0 (("now").toList) (by decide) (by decide) (by decide)
    (by decide)

theorem construct_isSome_iff (f : MsgFields) (seed : Nat) (now : Str) :
    (construct f seed now).isSome = true ↔
      ∃ m0, assemble f seed = some m0 ∧ (parseMsg (toMessage m0 seed now)).isSome = true := by
  unfold construct
  cases h : assemble f seed with
  | none => simp [h]
  | some m0 =>
    by_cases hp : (parseMsg (toMessage m0 seed now)).isSome = true <;> simp [h, hp]

/-- C7, round-trip: for every structurally valid field set, construction
succeeds and parsing the serialization of the constructed message yields
the constructed message itself, equal on every field; moreover any
successful construction from explicit fields re-parsed successfully
during its validation step. -/
theorem c7_round_trip (f : MsgFields) (seed seed2 : Nat) (now now2 : Str)
    (h : fieldsOK f now = true) :
    (∃ m, construct f seed now = some m ∧ parseMsg (toMessage m seed2 now2) = some m) ∧
    (∀ (g : MsgFields) (sd : Nat) (nw : Str),
      (construct g sd nw).isSome = true →
        ∃ m0, assemble g sd = some m0 ∧ (parseMsg (toMessage m0 sd nw)).isSome = true) := by
  refine ⟨?_, fun g sd nw hg => (construct_isSome_iff g sd nw).mp hg⟩
  simp only [fieldsOK, Bool.and_eq_true] at h
  obtain ⟨⟨hc, hns⟩, hch⟩ := h
  have haS : (assemble f seed).isSome = true := by
    cases hcid : f.chainId with
    | inl n => simp [assemble, hcid]
    | inr s =>
      rw [hcid] at hch
      obtain ⟨n, hn⟩ := Option.isSome_iff_exists.mp hch
      simp [assemble, hcid, parseIntegerNumber, hn]
  obtain ⟨m0, ha⟩ := Option.isSome_iff_exists.mp haS
  obtain ⟨hmok, hnne, hine, hcon⟩ := construct_char f seed now m0 hc ha
  have hok : nonceOK m0.nonce = true := by
    obtain ⟨n, hm⟩ := assemble_eq f seed m0 ha
    subst hm
    show nonceOK (match f.nonce with
      | some s => if s.isEmpty then generateNonce seed else s
      | none => generateNonce seed) = true
    cases hfn : f.nonce with
    | none => exact generateNonce_ok seed
    | some s =>
      rw [hfn] at hns
      by_cases hse : s.isEmpty = true
      · simp only [hse, if_true]
        exact generateNonce_ok seed
      · simp only [hse, if_false]
        rcases (Bool.or_eq_true _ _).mp hns with h1 | h1
        · exact absurd h1 hse
        · exact h1
  rw [hcon, if_pos hok]
  refine ⟨toMessageMut m0 seed now, rfl, ?_⟩
  have hp := parse_toMessage (toMessageMut m0 seed now) seed2 now2 hmok
  rw [hp]
  have hnn : (toMessageMut m0 seed now).nonce = m0.nonce := effNonce_of_ne m0 seed hnne
  rw [hnn, if_pos hok]

def c7f : MsgFields :=
  { scheme := none, domain := ("example.com").toList, address := ("0xAb").toList,
    statement := none, uri := ("u").toList, version := ("1").toList,
    chainId := .inr (("137").toList), nonce := some (("abcdefgh").toList),
    issuedAt := none, expirationTime := none, notBefore := none, requestId := none,
    resources := none }

def c8m : SiweMessage :=
  { scheme := none, domain := ("example.com").toList, address := ("0xAb").toList,
    statement := none, uri := ("u").toList, version := ("1").toList,
    chainId := .inl 137, nonce := ("abcdefgh").toList, issuedAt := some (("t").toList),
    expirationTime := none, notBefore := none, requestId := none, resources := none }

/-- C7, witness at a concrete field set with a numeric-string chainId. -/
theorem c7_round_trip_witness :
    construct c7f 0 (("t").toList) = some c8m ∧
    parseMsg (toMessage c8m 1 (("x").toList)) = some c8m := by
  obtain ⟨m, hm1, hm2⟩ := (c7_round_trip c7f 0 1 (("t").toList) (("x").toList)
    (by decide)).1
  have hmc : construct c7f 0 (("t").toList) = some c8m := by decide
  rw [hmc] at hm1
  have he : c8m = m := Option.some_inj.mp hm1
  subst he
  exact ⟨hmc, hm2⟩

/-- C8: after a successful construction from clean explicit fields, the
message's nonce has the grammar's shape — non-empty, at least eight
alphanumeric characters, auto-generated when not supplied — and its
chainId is a true integer even when supplied as a numeric string.  The
model's messages are immutable values, so the invariants hold from the end
of construction onward. -/
theorem c8_constructed_invariants (f : MsgFields) (seed : Nat) (now : Str)
    (m : SiweMessage) (hc : fieldsClean f now = true)
    (h : construct f seed now = some m) :
    nonceOK m.nonce = true ∧ (∃ n, m.chainId = Sum.inl n) ∧
    (f.nonce = none → m.nonce = generateNonce seed) := by
  have ha : ∃ m0, assemble f seed = some m0 := by
    unfold construct at h
    cases hA : assemble f seed with
    | none => rw [hA] at h; exact absurd h (by simp)
    | some m0 => exact ⟨m0, rfl⟩
  obtain ⟨m0, ha⟩ := ha
  obtain ⟨hmok, hnne, hine, hcon⟩ := construct_char f seed now m0 hc ha
  rw [hcon] at h
  by_cases hok : nonceOK m0.nonce = true
  case neg =>
    rw [if_neg hok] at h
    exact absurd h (by simp)
  rw [if_pos hok] at h
  have hm : m = toMessageMut m0 seed now := (Option.some_inj.mp h).symm
  subst hm
  have hnonce : (toMessageMut m0 seed now).nonce = m0.nonce := effNonce_of_ne m0 seed hnne
  obtain ⟨n, hm0⟩ := assemble_eq f seed m0 ha
  refine ⟨by rw [hnonce]; exact hok, ⟨n, ?_⟩, ?_⟩
  · rw [show (toMessageMut m0 seed now).chainId = m0.chainId from rfl, hm0]
  · intro hfn
    rw [hnonce, hm0]
    simp [hfn]

def c8mg : SiweMessage := { c8m with nonce := ("00000000").toList }

/-- C8, witness: the concrete construction from c7f without a supplied
nonce (and with the chainId as the string "137") yields a message whose
nonce is the generated grammar-shaped one and whose chainId is a true
integer. -/
theorem c8_constructed_invariants_witness :
    nonceOK c8mg.nonce = true ∧ c8mg.chainId = Sum.inl 137 ∧
    c8mg.nonce = generateNonce 0 := by
  have H := c8_constructed_invariants { c7f with nonce := none } 0 (("t").toList) c8mg
    (by decide) (by decide)
  exact ⟨H.1, by decide, H.2.2 rfl⟩

/-- C10: a nonce supplied as the empty string is treated exactly like an
absent nonce — construction regenerates it — and construction from fields
can never produce a message whose nonce is the empty string. -/
theorem c10_empty_nonce_regenerated (f : MsgFields) (seed : Nat) (now : Str) :
    construct { f with nonce := some [] } seed now =
      construct { f with nonce := none } seed now ∧
    (∀ m, construct f seed now = some m → m.nonce ≠ []) := by
  constructor
  · have hA : assemble { f with nonce := some [] } seed =
        assemble { f with nonce := none } seed := by
      simp [assemble]
    unfold construct
    rw [hA]
  · intro m hm
    unfold construct at hm
    cases hA : assemble f seed with
    | none => simp [hA] at hm
    | some m0 =>
      simp only [hA] at hm
      by_cases hp : (parseMsg (toMessage m0 seed now)).isSome = true
      · rw [if_pos hp] at hm
        have : m = toMessageMut m0 seed now := (Option.some_inj.mp hm).symm
        subst this
        show effNonce m0 seed ≠ []
        unfold effNonce
        by_cases hn : m0.nonce.isEmpty = true
        · rw [if_pos hn]
          exact generateNonce_ne_nil seed
        · rw [if_neg hn]
          intro hnil
          exact hn (by rw [hnil]; rfl)
      · rw [if_neg hp] at hm
        exact absurd hm (by simp)

/-- C10, witness: the empty-string nonce and the absent nonce construct
identically on a concrete field set, and the concretely constructed
message has a non-empty nonce. -/
theorem c10_empty_nonce_regenerated_witness :
    construct { c7f with nonce := some [] } 0 (("t").toList) =
      construct { c7f with nonce := none } 0 (("t").toList) ∧
    c8m.nonce ≠ [] :=
  ⟨(c10_empty_nonce_regenerated c7f 0 (("t").toList)).1,
   (c10_empty_nonce_regenerated c7f 0 (("t").toList)).2 c8m (by decide)⟩
